import Mathlib

/-!
Verification of the streaming-relay core of the poc-async-celery repository.

The embedding models, from backend/tasks.py:
  - the chunk dictionaries written by store_chunk (chunk_index, chunk_type, content),
  - the Redis list state touched by store_chunk (RPUSH + EXPIRE with CHUNK_TTL),
  - the producer process_stream_async as a function from an engine trace
    (the deltas the OpenAI stream yields, and whether it completes or raises)
    to the ordered list of side-effecting actions it performs;
and, from backend/main.py:
  - the consumer generator generate_stream inside the /stream/{task_id} endpoint:
    the catch-up replay over the LRANGE snapshot, the pub/sub live loop with its
    per-wait 1 s timeout and the 300 s overall deadline, and the frame shapes
    yielded to the client.
Concurrency between the producer (rpush then publish, per chunk) and a consumer
(lrange then subscribe) is modelled by the two cut points of the consumer in the
producer's step sequence.
-/

namespace PocAsyncCelery

/-- CHUNK_TTL from backend/tasks.py: retention window in seconds for a job's chunk list. -/
def CHUNK_TTL : Nat := 3600

/-- max_wait_time from generate_stream in backend/main.py: overall session deadline in seconds. -/
def max_wait_time : ℚ := 300

/-- One chunk dictionary as built in process_stream_async and stored by store_chunk:
keys chunk_index, chunk_type, content. -/
structure Chunk where
  chunk_index : Nat
  chunk_type : String
  content : String
deriving Repr, DecidableEq

/-- A chunk whose chunk_type marks the end of the stream (done or error). -/
def isTerminal (c : Chunk) : Bool :=
  c.chunk_type = "done" ∨ c.chunk_type = "error"

/-- One event yielded by the OpenAI response stream, as dispatched on event.type in
process_stream_async. Events without a type attribute or with any other type fall
into otherEvent (the code skips them). -/
inductive EngineEvent where
  | output_text_delta (delta : String)
  | reasoning_summary_text_delta (delta : String)
  | otherEvent
deriving Repr, DecidableEq

/-- How the engine's stream ends: normal exhaustion, or an exception raised after the
listed events were yielded. -/
inductive EngineOutcome where
  | completes
  | raises (msg : String)
deriving Repr, DecidableEq

/-- A full run of the generation engine: the deltas it yielded, then its outcome. -/
structure EngineTrace where
  events : List EngineEvent
  outcome : EngineOutcome
deriving Repr, DecidableEq

/-- The mutable local state of the async-for loop in process_stream_async, plus the
list of chunks handed to store_chunk so far. -/
structure LoopState where
  assistant_content : String
  assistant_reasoning : String
  chunk_index : Nat
  chunks : List Chunk
deriving Repr, DecidableEq

/-- Loop state at the top of process_stream_async. -/
def initLoopState : LoopState :=
  { assistant_content := "", assistant_reasoning := "", chunk_index := 0, chunks := [] }

/-- One iteration of the async-for over the engine stream in process_stream_async:
empty deltas are skipped (the `if delta:` guards), content and reasoning deltas are
accumulated and stored as chunks with the current chunk_index, other events are ignored. -/
def stepEvent (s : LoopState) (e : EngineEvent) : LoopState :=
  match e with
  | EngineEvent.output_text_delta delta =>
      if delta = "" then s
      else
        { s with
          assistant_content := s.assistant_content ++ delta,
          chunk_index := s.chunk_index + 1,
          chunks := s.chunks ++ [⟨s.chunk_index, "content", delta⟩] }
  | EngineEvent.reasoning_summary_text_delta delta =>
      if delta = "" then s
      else
        { s with
          assistant_reasoning := s.assistant_reasoning ++ delta,
          chunk_index := s.chunk_index + 1,
          chunks := s.chunks ++ [⟨s.chunk_index, "reasoning", delta⟩] }
  | EngineEvent.otherEvent => s

/-- The whole async-for loop of process_stream_async over the engine's yielded events. -/
def runLoop (events : List EngineEvent) : LoopState :=
  events.foldl stepEvent initLoopState

/-- A side-effecting action performed by process_stream_async, in program order:
a store_chunk call (which does RPUSH + EXPIRE + PUBLISH), the SQL update of the
assistant message row, or a store_stream_metadata call (abstracted to its status). -/
inductive ProducerAction where
  | append_chunk (c : Chunk)
  | update_message (content : String) (reasoning : Option String)
  | store_metadata (status : String)
deriving Repr, DecidableEq

/-- process_stream_async from backend/tasks.py as the ordered list of actions it
performs on an engine trace: initial processing metadata; one store_chunk per
non-empty delta; then, on completion, the DB update of the message row followed by
the done chunk and completed metadata, or, when the engine raises, the error chunk
and error metadata (the except branch; the DB update is skipped). -/
def process_stream_async (t : EngineTrace) : List ProducerAction :=
  let s := runLoop t.events
  ProducerAction.store_metadata "processing" ::
    (s.chunks.map ProducerAction.append_chunk ++
      match t.outcome with
      | EngineOutcome.completes =>
          [ProducerAction.update_message s.assistant_content
              (if s.assistant_reasoning = "" then none else some s.assistant_reasoning),
            ProducerAction.append_chunk ⟨s.chunk_index, "done", ""⟩,
            ProducerAction.store_metadata "completed"]
      | EngineOutcome.raises msg =>
          [ProducerAction.append_chunk ⟨s.chunk_index, "error", msg⟩,
            ProducerAction.store_metadata "error"])

/-- The chunks a producer run hands to store_chunk, in order. -/
def appendedChunks (acts : List ProducerAction) : List Chunk :=
  acts.filterMap fun a =>
    match a with
    | ProducerAction.append_chunk c => some c
    | _ => none

/-- The event log written for a job by process_stream_async on a given engine trace. -/
def producerChunks (t : EngineTrace) : List Chunk :=
  appendedChunks (process_stream_async t)

/-- The terminal chunk process_stream_async writes for a trace: done with empty content
on completion, error with the exception message when the engine raises. -/
def terminalChunk (t : EngineTrace) : Chunk :=
  match t.outcome with
  | EngineOutcome.completes => ⟨(runLoop t.events).chunk_index, "done", ""⟩
  | EngineOutcome.raises msg => ⟨(runLoop t.events).chunk_index, "error", msg⟩

/-- The Redis state for one job's chunk list: the list contents and the absolute
expiry instant set by the latest EXPIRE, if any. -/
structure RedisStream where
  chunks : List Chunk
  ttl_expiry : Option Nat
deriving Repr, DecidableEq

/-- store_chunk from backend/tasks.py acting on the list state at time now:
RPUSH the chunk, then EXPIRE the key to CHUNK_TTL seconds from now.
(The PUBLISH side is modelled separately by the live-phase schedules.) -/
def store_chunk (now : Nat) (st : RedisStream) (c : Chunk) : RedisStream :=
  { chunks := st.chunks ++ [c], ttl_expiry := some (now + CHUNK_TTL) }

/-- One frame yielded to the client by generate_stream in backend/main.py, i.e. the
JSON object in one `data:` line: a content frame, a reasoning frame, the done frame,
or an error frame. -/
inductive Frame where
  | content (text : String)
  | reasoning (text : String)
  | done
  | error (message : String)
deriving Repr, DecidableEq

/-- The catch-up loop of generate_stream over the LRANGE snapshot (existing_chunks):
dispatch on chunk_type in source order; content and reasoning chunks yield their frame
and the loop continues; done and error yield their frame and the generator returns
(second component true); any other chunk_type yields nothing. Each emission is recorded
as the chunk together with the frame yielded for it. -/
def replayPhase : List Chunk → List (Chunk × Frame) × Bool
  | [] => ([], false)
  | c :: rest =>
      if c.chunk_type = "content" then
        ((c, Frame.content c.content) :: (replayPhase rest).1, (replayPhase rest).2)
      else if c.chunk_type = "reasoning" then
        ((c, Frame.reasoning c.content) :: (replayPhase rest).1, (replayPhase rest).2)
      else if c.chunk_type = "done" then ([(c, Frame.done)], true)
      else if c.chunk_type = "error" then ([(c, Frame.error c.content)], true)
      else replayPhase rest

/-- How the pub/sub while-loop of generate_stream exits: a terminal chunk arrived
(done flag set, break), the overall deadline fired (break after the timeout frame),
or the modelled observation window ended with the loop still waiting. -/
inductive LiveExit where
  | closed
  | timed_out
  | exhausted
deriving Repr, DecidableEq

/-- The pub/sub while-loop of generate_stream. Each list entry models one loop
iteration: the elapsed seconds since start_time at the top of the iteration, and the
result of pubsub.get_message (none for a 1 s timeout, or a decoded data message;
subscribe confirmations, foreign message types and undecodable payloads all behave
as none via `continue`). The deadline test `elapsed > max_wait_time` runs first; a
real chunk is dispatched on chunk_type exactly as in the replay loop, with done and
error setting the done flag and breaking. -/
def livePhase : List (ℚ × Option Chunk) → List (Chunk × Frame) × LiveExit
  | [] => ([], LiveExit.exhausted)
  | (elapsed, msg) :: rest =>
      if max_wait_time < elapsed then ([], LiveExit.timed_out)
      else
        match msg with
        | none => livePhase rest
        | some c =>
            if c.chunk_type = "content" then
              ((c, Frame.content c.content) :: (livePhase rest).1, (livePhase rest).2)
            else if c.chunk_type = "reasoning" then
              ((c, Frame.reasoning c.content) :: (livePhase rest).1, (livePhase rest).2)
            else if c.chunk_type = "done" then ([(c, Frame.done)], LiveExit.closed)
            else if c.chunk_type = "error" then ([(c, Frame.error c.content)], LiveExit.closed)
            else livePhase rest

/-- generate_stream from the /stream/{task_id} endpoint: replay the LRANGE snapshot
first; if the replay returned (a terminal chunk was seen, or equivalently done became
true) the session ends there and pub/sub is never entered; otherwise subscribe and run
the live loop over the given iteration schedule. The second component is the synthetic
frame yielded when the deadline fires: data with error "Stream timeout". -/
def generate_stream (stored : List Chunk) (sched : List (ℚ × Option Chunk)) :
    List (Chunk × Frame) × Option Frame :=
  let r := replayPhase stored
  if r.2 then (r.1, none)
  else
    let l := livePhase sched
    (r.1 ++ l.1,
      if l.2 = LiveExit.timed_out then some (Frame.error "Stream timeout") else none)

/-- The frames a consumer session yields, in order (event frames, then the synthetic
timeout frame if any). -/
def sessionFrames (stored : List Chunk) (sched : List (ℚ × Option Chunk)) : List Frame :=
  (generate_stream stored sched).1.map Prod.snd ++ (generate_stream stored sched).2.toList

/-- The stored events a consumer session delivers (each paired frame's source chunk). -/
def sessionChunks (stored : List Chunk) (sched : List (ℚ × Option Chunk)) : List Chunk :=
  (generate_stream stored sched).1.map Prod.fst

/-- The chunks the catch-up replay delivers. -/
def replayDelivered (stored : List Chunk) : List Chunk :=
  (replayPhase stored).1.map Prod.fst

/-- The chunks the live phase delivers (none when the replay already returned). -/
def liveDelivered (stored : List Chunk) (sched : List (ℚ × Option Chunk)) : List Chunk :=
  if (replayPhase stored).2 then [] else (livePhase sched).1.map Prod.fst

/-!
Interleaving model for one producer and one attaching consumer.

The producer executes, for its k-th chunk, step 2k (`rpush`) then step 2k+1
(`publish`), in order. The consumer performs its LRANGE after the first i producer
steps and its SUBSCRIBE after the first j producer steps, with i ≤ j since the code
reads the list strictly before subscribing. The LRANGE snapshot therefore holds the
chunks whose rpush step lies below i, i.e. the first (i+1)/2 chunks, and the
subscription receives exactly the publishes at steps ≥ j, i.e. the chunks from
position j/2 on. -/

/-- The LRANGE snapshot seen by a consumer whose read happens after the first i
producer steps. -/
def pushedBefore (cs : List Chunk) (i : Nat) : List Chunk :=
  cs.take ((i + 1) / 2)

/-- The published chunks a consumer receives when its subscription starts after the
first j producer steps. -/
def publishedFrom (cs : List Chunk) (j : Nat) : List Chunk :=
  cs.drop (j / 2)

/-- The live-loop schedule induced by the publishes reaching the subscription, all
well inside the session deadline. -/
def raceSchedule (cs : List Chunk) (j : Nat) : List (ℚ × Option Chunk) :=
  (publishedFrom cs j).map fun c => ((0 : ℚ), some c)

/-- The pair the replay loop emits for a stream (content or reasoning) chunk. -/
def streamPair (c : Chunk) : Chunk × Frame :=
  if c.chunk_type = "content" then (c, Frame.content c.content)
  else (c, Frame.reasoning c.content)

/-- The frame emitted for the terminal chunk of a producer run. -/
def terminalFrame (t : EngineTrace) : Frame :=
  match t.outcome with
  | EngineOutcome.completes => Frame.done
  | EngineOutcome.raises msg => Frame.error msg

/-- Whether a producer action is the SQL update of the assistant message row. -/
def isUpdateMessage (a : ProducerAction) : Bool :=
  match a with
  | ProducerAction.update_message _ _ => true
  | _ => false

/-- The content column of the assistant message row after a list of producer actions
has run, starting from the given initial content (send_message in backend/main.py
creates the placeholder row with content the empty string). -/
def finalMessageContent (initial : String) (acts : List ProducerAction) : String :=
  acts.foldl
    (fun cur a =>
      match a with
      | ProducerAction.update_message content _ => content
      | _ => cur)
    initial

/-- A small engine run used to exhibit concrete behaviours: one content delta, then
normal completion. -/
def sampleTrace : EngineTrace :=
  ⟨[EngineEvent.output_text_delta "x"], EngineOutcome.completes⟩

/-- A second engine run used to exhibit concrete behaviours: two content deltas, then
normal completion. -/
def sampleTrace2 : EngineTrace :=
  ⟨[EngineEvent.output_text_delta "a", EngineEvent.output_text_delta "b"],
    EngineOutcome.completes⟩

/-! ### Invariants of the producer loop -/

/-- Invariant of the async-for loop: chunk_index counts the chunks written so far,
the written chunks carry consecutive indices from 0, and all of them are stream
chunks (content or reasoning). -/
def LoopInv (s : LoopState) : Prop :=
  s.chunk_index = s.chunks.length ∧
    s.chunks.map Chunk.chunk_index = List.range s.chunks.length ∧
    ∀ c ∈ s.chunks, c.chunk_type = "content" ∨ c.chunk_type = "reasoning"

lemma loopInv_init : LoopInv initLoopState := by
  refine ⟨rfl, rfl, ?_⟩
  intro c hc
  simp [initLoopState] at hc

lemma loopInv_step (s : LoopState) (e : EngineEvent) (h : LoopInv s) :
    LoopInv (stepEvent s e) := by
  obtain ⟨hlen, hidx, hkind⟩ := h
  cases e with
  | output_text_delta delta =>
      by_cases hd : delta = "" <;>
        simp only [stepEvent, hd, if_pos, if_neg, not_false_iff]
      · exact ⟨hlen, hidx, hkind⟩
      · refine ⟨by simp [hlen], ?_, ?_⟩
        · simp [hidx, hlen, List.range_succ]
        · intro c hc
          rcases List.mem_append.mp hc with h1 | h1
          · exact hkind c h1
          · simp at h1; subst h1; left; rfl
  | reasoning_summary_text_delta delta =>
      by_cases hd : delta = "" <;>
        simp only [stepEvent, hd, if_pos, if_neg, not_false_iff]
      · exact ⟨hlen, hidx, hkind⟩
      · refine ⟨by simp [hlen], ?_, ?_⟩
        · simp [hidx, hlen, List.range_succ]
        · intro c hc
          rcases List.mem_append.mp hc with h1 | h1
          · exact hkind c h1
          · simp at h1; subst h1; right; rfl
  | otherEvent => exact ⟨hlen, hidx, hkind⟩

lemma loopInv_foldl (events : List EngineEvent) (s : LoopState) (h : LoopInv s) :
    LoopInv (events.foldl stepEvent s) := by
  induction events generalizing s with
  | nil => exact h
  | cons e rest ih => exact ih _ (loopInv_step s e h)

lemma loopInv_runLoop (events : List EngineEvent) : LoopInv (runLoop events) :=
  loopInv_foldl events initLoopState loopInv_init

/-! ### Shape of the producer's event log -/

lemma appendedChunks_append (l₁ l₂ : List ProducerAction) :
    appendedChunks (l₁ ++ l₂) = appendedChunks l₁ ++ appendedChunks l₂ :=
  List.filterMap_append ..

lemma appendedChunks_map (l : List Chunk) :
    appendedChunks (l.map ProducerAction.append_chunk) = l := by
  induction l with
  | nil => rfl
  | cons c rest ih => simpa [appendedChunks] using ih

/-- The event log of a producer run is the loop's stream chunks followed by the one
terminal chunk. -/
lemma producerChunks_eq (t : EngineTrace) :
    producerChunks t = (runLoop t.events).chunks ++ [terminalChunk t] := by
  have hsome : ((fun a : ProducerAction =>
      match a with
      | ProducerAction.append_chunk c => some c
      | _ => none) ∘ ProducerAction.append_chunk) = some := rfl
  cases ht : t.outcome with
  | completes =>
      simp [producerChunks, process_stream_async, terminalChunk, ht, appendedChunks,
        List.filterMap_append, hsome]
  | raises msg =>
      simp [producerChunks, process_stream_async, terminalChunk, ht, appendedChunks,
        List.filterMap_append, hsome]

lemma terminalChunk_index (t : EngineTrace) :
    (terminalChunk t).chunk_index = (runLoop t.events).chunks.length := by
  have h := (loopInv_runLoop t.events).1
  cases ht : t.outcome <;> simp [terminalChunk, ht, h]

lemma terminalChunk_isTerminal (t : EngineTrace) : isTerminal (terminalChunk t) = true := by
  cases ht : t.outcome <;> simp [terminalChunk, ht, isTerminal]

/-- The indices in a producer run's event log are exactly 0, 1, ..., n. -/
lemma producerChunks_map_index (t : EngineTrace) :
    (producerChunks t).map Chunk.chunk_index = List.range ((producerChunks t).length) := by
  have hinv := loopInv_runLoop t.events
  rw [producerChunks_eq]
  simp [hinv.2.1, terminalChunk_index, List.range_succ]

/-! ### Behaviour of the catch-up replay -/

lemma replayPhase_stream_append (l r : List Chunk)
    (h : ∀ c ∈ l, c.chunk_type = "content" ∨ c.chunk_type = "reasoning") :
    replayPhase (l ++ r) = (l.map streamPair ++ (replayPhase r).1, (replayPhase r).2) := by
  induction l with
  | nil => simp
  | cons c rest ih =>
      have hrest : ∀ c ∈ rest, c.chunk_type = "content" ∨ c.chunk_type = "reasoning" :=
        fun c hc => h c (List.mem_cons_of_mem _ hc)
      rcases h c (List.mem_cons_self c rest) with hc | hc <;>
        simp [replayPhase, hc, streamPair, ih hrest]

/-- Replaying a finished producer run's log emits a pair for every stored chunk, the
terminal chunk's pair last, and returns with the done flag set. -/
lemma replayPhase_producer (t : EngineTrace) :
    replayPhase (producerChunks t) =
      ((runLoop t.events).chunks.map streamPair ++ [(terminalChunk t, terminalFrame t)], true) := by
  rw [producerChunks_eq,
    replayPhase_stream_append _ _ (loopInv_runLoop t.events).2.2]
  cases ht : t.outcome <;> simp [replayPhase, terminalChunk, terminalFrame, ht]

lemma streamPair_fst (c : Chunk) : (streamPair c).fst = c := by
  unfold streamPair
  by_cases h : c.chunk_type = "content" <;> simp [h]

lemma map_fst_map_streamPair (l : List Chunk) :
    (l.map streamPair).map Prod.fst = l := by
  induction l with
  | nil => rfl
  | cons c rest ih => simp [streamPair_fst, ih]

lemma map_fst_comp_streamPair (l : List Chunk) :
    l.map (Prod.fst ∘ streamPair) = l := by
  induction l with
  | nil => rfl
  | cons c rest ih => simp [Function.comp, streamPair_fst, ih]

/-- The chunks the replay delivers form a sublist of the stored list. -/
lemma replayDelivered_sublist (l : List Chunk) : (replayDelivered l).Sublist l := by
  induction l with
  | nil => simp [replayDelivered, replayPhase]
  | cons c rest ih =>
      unfold replayDelivered at ih ⊢
      by_cases h1 : c.chunk_type = "content"
      · simpa [replayPhase, h1] using ih.cons₂ c
      · by_cases h2 : c.chunk_type = "reasoning"
        · simpa [replayPhase, h1, h2] using ih.cons₂ c
        · by_cases h3 : c.chunk_type = "done"
          · simp [replayPhase, h1, h2, h3]
          · by_cases h4 : c.chunk_type = "error"
            · simp [replayPhase, h1, h2, h3, h4]
            · simpa [replayPhase, h1, h2, h3, h4] using ih.cons c

/-- The chunks the live loop delivers form a sublist of the pub/sub messages of its
schedule. -/
lemma livePhase_fst_sublist (sched : List (ℚ × Option Chunk)) :
    ((livePhase sched).1.map Prod.fst).Sublist (sched.filterMap Prod.snd) := by
  induction sched with
  | nil => simp [livePhase]
  | cons q rest ih =>
      obtain ⟨e, msg⟩ := q
      by_cases ht : max_wait_time < e
      · simp [livePhase, ht]
      · cases msg with
        | none => simpa [livePhase, ht] using ih
        | some c' =>
            by_cases h1 : c'.chunk_type = "content"
            · simpa [livePhase, ht, h1] using ih.cons₂ c'
            · by_cases h2 : c'.chunk_type = "reasoning"
              · simpa [livePhase, ht, h1, h2] using ih.cons₂ c'
              · by_cases h3 : c'.chunk_type = "done"
                · simp [livePhase, ht, h1, h2, h3]
                · by_cases h4 : c'.chunk_type = "error"
                  · simp [livePhase, ht, h1, h2, h3, h4]
                  · simpa [livePhase, ht, h1, h2, h3, h4] using ih.cons c'

/-- Every chunk the live loop delivers arrived as a pub/sub message of its schedule. -/
lemma livePhase_fst_mem {sched : List (ℚ × Option Chunk)} {c : Chunk}
    (hc : c ∈ (livePhase sched).1.map Prod.fst) : ∃ p ∈ sched, p.2 = some c :=
  List.mem_filterMap.mp ((livePhase_fst_sublist sched).subset hc)

/-- In a list whose indices read 0, 1, ..., n-1, a member of the first m elements has
index below m. -/
lemma mem_take_index {cs : List Chunk} {m : Nat} {c : Chunk}
    (hidx : cs.map Chunk.chunk_index = List.range cs.length)
    (hc : c ∈ cs.take m) : c.chunk_index < m := by
  have h1 : c.chunk_index ∈ (cs.take m).map Chunk.chunk_index :=
    List.mem_map_of_mem _ hc
  rw [List.map_take, hidx, List.take_range] at h1
  exact lt_of_lt_of_le (List.mem_range.mp h1) (min_le_left m cs.length)

/-- In a list whose indices read 0, 1, ..., n-1, a member of the elements from
position m on has index at least m. -/
lemma mem_drop_index {cs : List Chunk} {m : Nat} {c : Chunk}
    (hidx : cs.map Chunk.chunk_index = List.range cs.length)
    (hc : c ∈ cs.drop m) : m ≤ c.chunk_index := by
  obtain ⟨k, hk, hek⟩ := List.mem_iff_getElem.mp hc
  have hmk : m + k < cs.length := by
    have := hk
    simp only [List.length_drop] at this
    omega
  have hmk2 : m + k < (cs.map Chunk.chunk_index).length := by simpa using hmk
  have h2 : cs[m + k].chunk_index = m + k := by
    have h3 : (cs.map Chunk.chunk_index)[m + k] = m + k := by
      simp [hidx]
    simpa using h3
  have h4 : (cs.drop m)[k] = cs[m + k] := List.getElem_drop cs
  have h5 : c.chunk_index = m + k := by rw [← hek, h4, h2]
  omega


/-- Replaying a list of stream chunks alone emits one pair per chunk and leaves the
done flag unset. -/
lemma replayPhase_stream (l : List Chunk)
    (h : ∀ c ∈ l, c.chunk_type = "content" ∨ c.chunk_type = "reasoning") :
    replayPhase l = (l.map streamPair, false) := by
  have happ := replayPhase_stream_append l [] h
  simpa [replayPhase] using happ

/-- A run of actions containing no message-row update leaves the row's content at its
initial value. -/
lemma finalMessageContent_of_no_update (initial : String) (acts : List ProducerAction)
    (h : ∀ a ∈ acts, isUpdateMessage a = false) :
    finalMessageContent initial acts = initial := by
  induction acts generalizing initial with
  | nil => rfl
  | cons a rest ih =>
      have ha := h a (List.mem_cons_self a rest)
      have hrest : ∀ a ∈ rest, isUpdateMessage a = false :=
        fun a ha' => h a (List.mem_cons_of_mem _ ha')
      cases a with
      | update_message content reasoning => simp [isUpdateMessage] at ha
      | append_chunk c => exact ih initial hrest
      | store_metadata s => exact ih initial hrest

/-! ### Claim theorems -/

/-- Claim C1: for every producer run that reaches completion or failure (every engine
trace), exactly one terminal (done or error) chunk is written to the job's event log,
its sequence number is the highest of the job, and no chunk is appended after it (it
is the last chunk of the log). -/
theorem c1_exactly_one_terminal (t : EngineTrace) :
    ∃ term : Chunk,
      (producerChunks t).getLast? = some term ∧
        isTerminal term = true ∧
        (producerChunks t).countP (fun c => isTerminal c) = 1 ∧
        ∀ c ∈ producerChunks t, c.chunk_index ≤ term.chunk_index := by
  refine ⟨terminalChunk t, ?_, terminalChunk_isTerminal t, ?_, ?_⟩
  · rw [producerChunks_eq]
    exact List.getLast?_concat _
  · rw [producerChunks_eq, List.countP_append]
    have h0 : (runLoop t.events).chunks.countP (fun c => isTerminal c) = 0 := by
      rw [List.countP_eq_zero]
      intro c hc
      rcases (loopInv_runLoop t.events).2.2 c hc with h | h <;> simp [isTerminal, h]
    rw [h0]
    simp [terminalChunk_isTerminal t]
  · intro c hc
    have h1 : c.chunk_index ∈ (producerChunks t).map Chunk.chunk_index :=
      List.mem_map_of_mem _ hc
    rw [producerChunks_map_index] at h1
    have h2 : c.chunk_index < (producerChunks t).length := List.mem_range.mp h1
    have h3 : (producerChunks t).length = (runLoop t.events).chunks.length + 1 := by
      rw [producerChunks_eq]; simp
    have h4 := terminalChunk_index t
    omega

/-- Witness for C1 at the sampleTrace run: its log holds exactly one terminal chunk,
the last one, and the concrete content chunk at sequence 0 has no higher sequence. -/
theorem c1_witness :
    (producerChunks sampleTrace).countP (fun c => isTerminal c) = 1 ∧
      ∃ term : Chunk, (producerChunks sampleTrace).getLast? = some term ∧
        (Chunk.mk 0 "content" "x").chunk_index ≤ term.chunk_index := by
  obtain ⟨term, h1, h2, h3, h4⟩ := c1_exactly_one_terminal sampleTrace
  exact ⟨h3, term, h1, h4 _ (by decide)⟩

/-- Claim C8: every store_chunk call appends the chunk to the job's list and resets
the list's TTL to the full CHUNK_TTL = 3600 second window measured from that append;
and across a producer run the chunk_index values assigned are 0, 1, 2, ... in order —
gap-free, starting at 0, never reused. -/
theorem c8_append_assigns_next_sequence_and_refreshes_ttl
    (now : Nat) (st : RedisStream) (c : Chunk) (t : EngineTrace) :
    (store_chunk now st c).chunks = st.chunks ++ [c] ∧
      (store_chunk now st c).ttl_expiry = some (now + 3600) ∧
      CHUNK_TTL = 3600 ∧
      (producerChunks t).map Chunk.chunk_index = List.range ((producerChunks t).length) :=
  ⟨rfl, rfl, rfl, producerChunks_map_index t⟩

/-- Claim C9: when the engine completes — even after yielding zero deltas, so that the
loop state is untouched — the producer still appends a terminal done chunk (with
chunk_index equal to the number of stream chunks, 0 when there were none), and every
done chunk ever written has empty content. -/
theorem c9_done_appended_with_empty_payload (t : EngineTrace) :
    (t.outcome = EngineOutcome.completes →
        (producerChunks t).getLast? =
          some ⟨(runLoop t.events).chunks.length, "done", ""⟩) ∧
      ∀ c ∈ producerChunks t, c.chunk_type = "done" → c.content = "" := by
  constructor
  · intro h
    rw [producerChunks_eq, List.getLast?_concat]
    have hlen := (loopInv_runLoop t.events).1
    simp [terminalChunk, h, hlen]
  · intro c hc hdone
    rw [producerChunks_eq] at hc
    rcases List.mem_append.mp hc with h1 | h1
    · rcases (loopInv_runLoop t.events).2.2 c h1 with h | h <;>
        rw [h] at hdone <;> simp at hdone
    · simp only [List.mem_singleton] at h1
      subst h1
      cases ht : t.outcome with
      | completes => simp [terminalChunk, ht]
      | raises msg =>
          rw [terminalChunk, ht] at hdone
          simp at hdone

/-- Witness for C9 at the zero-delta trace: the engine yields nothing and completes,
and the log still ends with the done chunk at sequence 0, whose content is empty. -/
theorem c9_witness :
    (producerChunks ⟨[], EngineOutcome.completes⟩).getLast? =
        some ⟨(runLoop ([] : List EngineEvent)).chunks.length, "done", ""⟩ ∧
      (Chunk.mk 1 "done" "").content = "" :=
  ⟨(c9_done_appended_with_empty_payload ⟨[], EngineOutcome.completes⟩).1 rfl,
    (c9_done_appended_with_empty_payload sampleTrace).2 ⟨1, "done", ""⟩ (by decide) rfl⟩

/-- Claim C2: a consumer that attaches after the producer has finished (its whole log,
terminal chunk included, is in the LRANGE snapshot) replays every stored chunk in
order, the terminal chunk's frame comes last, the replay returns with the done flag
set, and the session output is the replay alone — the pub/sub live phase is never
entered, whatever messages it would have carried. -/
theorem c2_replay_after_finish (t : EngineTrace) :
    (replayPhase (producerChunks t)).1.map Prod.fst = producerChunks t ∧
      (replayPhase (producerChunks t)).2 = true ∧
      (∀ sched, generate_stream (producerChunks t) sched =
        ((replayPhase (producerChunks t)).1, none)) ∧
      ∀ sched, (sessionFrames (producerChunks t) sched).getLast? = some (terminalFrame t) := by
  have hrp := replayPhase_producer t
  refine ⟨?_, ?_, ?_, ?_⟩
  · rw [hrp, producerChunks_eq, List.map_append, map_fst_map_streamPair]
    simp
  · rw [hrp]
  · intro sched
    simp [generate_stream, hrp]
  · intro sched
    simp [sessionFrames, generate_stream, hrp]

/-- Claim C10: when the engine raises, process_stream_async performs no update of the
assistant message row, so its content stays the empty placeholder send_message wrote;
the row update happens only on the completion path, exactly once, with the accumulated
content and reasoning, and strictly before the done chunk is appended. -/
theorem c10_db_update_only_on_success (t : EngineTrace) :
    ((∃ msg, t.outcome = EngineOutcome.raises msg) →
        (∀ content reasoning,
            ProducerAction.update_message content reasoning ∉ process_stream_async t) ∧
          finalMessageContent "" (process_stream_async t) = "") ∧
      (t.outcome = EngineOutcome.completes →
        (process_stream_async t).countP isUpdateMessage = 1 ∧
          ∃ u d : Nat, u < d ∧
            (process_stream_async t)[u]? =
              some (ProducerAction.update_message (runLoop t.events).assistant_content
                (if (runLoop t.events).assistant_reasoning = "" then none
                  else some (runLoop t.events).assistant_reasoning)) ∧
            (process_stream_async t)[d]? =
              some (ProducerAction.append_chunk ⟨(runLoop t.events).chunk_index, "done", ""⟩)) := by
  constructor
  · rintro ⟨msg, ht⟩
    have hno : ∀ a ∈ process_stream_async t, isUpdateMessage a = false := by
      intro a ha
      simp only [process_stream_async, ht] at ha
      rcases List.mem_cons.mp ha with rfl | ha
      · rfl
      rcases List.mem_append.mp ha with ha | ha
      · obtain ⟨c, _, rfl⟩ := List.mem_map.mp ha
        rfl
      · rcases List.mem_cons.mp ha with rfl | ha
        · rfl
        · rcases List.mem_cons.mp ha with rfl | ha
          · rfl
          · simp at ha
    constructor
    · intro content reasoning hmem
      have := hno _ hmem
      simp [isUpdateMessage] at this
    · exact finalMessageContent_of_no_update "" _ hno
  · intro ht
    have hmaplen : ((runLoop t.events).chunks.map ProducerAction.append_chunk).length
        = (runLoop t.events).chunks.length := by simp
    constructor
    · have hmap0 :
          ((runLoop t.events).chunks.map ProducerAction.append_chunk).countP isUpdateMessage
            = 0 := by
        rw [List.countP_eq_zero]
        intro a ha
        obtain ⟨c, _, rfl⟩ := List.mem_map.mp ha
        simp [isUpdateMessage]
      simp [process_stream_async, ht, List.countP_cons, List.countP_append, hmap0,
        isUpdateMessage]
    · refine ⟨(runLoop t.events).chunks.length + 1, (runLoop t.events).chunks.length + 2,
        by omega, ?_, ?_⟩
      · simp only [process_stream_async, ht, List.getElem?_cons_succ]
        rw [List.getElem?_append_right (by omega)]
        simp [hmaplen]
      · simp only [process_stream_async, ht, List.getElem?_cons_succ]
        rw [List.getElem?_append_right (by omega)]
        simp [hmaplen]

/-- Witness for C10: on a run whose engine raises after one delta the message row
content stays empty, and on a completing run the row update happens exactly once. -/
theorem c10_witness :
    finalMessageContent ""
        (process_stream_async ⟨[EngineEvent.output_text_delta "hi"], EngineOutcome.raises "boom"⟩)
        = "" ∧
      (process_stream_async sampleTrace).countP isUpdateMessage = 1 :=
  ⟨((c10_db_update_only_on_success
        ⟨[EngineEvent.output_text_delta "hi"], EngineOutcome.raises "boom"⟩).1
      ⟨"boom", rfl⟩).2,
    ((c10_db_update_only_on_success sampleTrace).2 rfl).1⟩

/-- Claim C3 (counterexample): attaching with a job_id that was never submitted (so
its LRANGE snapshot is empty, exactly as for a submitted job with zero events) does
NOT yield an immediate "not found": the replay ends with the done flag still unset, so
the session subscribes and enters the timeout wait, and an iteration past the deadline
yields the synthetic Stream-timeout error frame. This refutes the claim as stated. -/
theorem c3_counterexample :
    (replayPhase ([] : List Chunk)).2 = false ∧
      sessionFrames [] [((301 : ℚ), none)] = [Frame.error "Stream timeout"] := by
  constructor
  · rfl
  · decide

/-- Claim C3 (amended): an attach with a never-submitted or TTL-purged job_id sees an
empty stored history, receives no distinct not-found result, and behaves exactly as a
session on a submitted job with zero stored events: it enters the live-wait phase and
its output is whatever the live loop delivers, ending in the synthetic Stream-timeout
error frame when the 300 s deadline fires. -/
theorem c3_amended_unknown_job_enters_live_wait (sched : List (ℚ × Option Chunk)) :
    (replayPhase ([] : List Chunk)).2 = false ∧
      sessionFrames [] sched =
        (livePhase sched).1.map Prod.snd ++
          (if (livePhase sched).2 = LiveExit.timed_out
            then [Frame.error "Stream timeout"] else []) := by
  refine ⟨rfl, ?_⟩
  by_cases h : (livePhase sched).2 = LiveExit.timed_out <;>
    simp [sessionFrames, generate_stream, replayPhase, h]

/-- Claim C4 (counterexample): a consumer that observed events up to sequence K = 1
and reattaches to the finished two-content-chunk job receives the chunk with
sequence 0 again — the reattached session does not deliver only events with
sequence > K. This refutes the claim as stated. -/
theorem c4_counterexample :
    ∃ c ∈ sessionChunks (producerChunks sampleTrace2) [], c.chunk_index ≤ 1 := by
  decide

/-- Claim C4 (amended): the attach endpoint carries no cursor, so a reattaching
consumer replays the entire stored history from sequence 0 before any live delivery:
whatever prefix of the producer's log is stored at reattach time is re-emitted in
full — in particular every event with sequence ≤ K is delivered again. -/
theorem c4_amended_reattach_replays_from_zero (t : EngineTrace) (n : Nat)
    (sched : List (ℚ × Option Chunk)) :
    ∃ rest, sessionChunks ((producerChunks t).take n) sched =
      (producerChunks t).take n ++ rest := by
  by_cases hn : n ≤ (runLoop t.events).chunks.length
  · have htake : (producerChunks t).take n = (runLoop t.events).chunks.take n := by
      rw [producerChunks_eq]
      exact List.take_append_of_le_length hn
    have hkinds : ∀ c ∈ (runLoop t.events).chunks.take n,
        c.chunk_type = "content" ∨ c.chunk_type = "reasoning" :=
      fun c hc => (loopInv_runLoop t.events).2.2 c (List.mem_of_mem_take hc)
    have hrp := replayPhase_stream _ hkinds
    refine ⟨(livePhase sched).1.map Prod.fst, ?_⟩
    rw [htake]
    simp [sessionChunks, generate_stream, hrp, map_fst_map_streamPair,
      map_fst_comp_streamPair]
  · have hlen : (producerChunks t).length ≤ n := by
      rw [producerChunks_eq]
      simp
      omega
    have htake : (producerChunks t).take n = producerChunks t :=
      List.take_of_length_le hlen
    have hrp := replayPhase_producer t
    refine ⟨[], ?_⟩
    rw [htake, List.append_nil]
    have hgen : generate_stream (producerChunks t) sched =
        ((replayPhase (producerChunks t)).1, none) := by
      simp [generate_stream, hrp]
    simp only [sessionChunks, hgen]
    rw [hrp, producerChunks_eq, List.map_append, map_fst_map_streamPair]
    simp

/-- Claim C5 (counterexample): with the producer of sampleTrace (one content chunk,
then done), the interleaving i = j = 1 — the consumer's LRANGE and SUBSCRIBE both
happen between the rpush of chunk 0 and its publish — delivers chunk 0 in the replay
AND again in the live phase: the claim that no event delivered during catch-up is ever
re-delivered live, under every interleaving, is false. -/
theorem c5_counterexample :
    1 ≤ 1 ∧ 1 ≤ 2 * (producerChunks sampleTrace).length ∧
      ∃ c ∈ replayDelivered (pushedBefore (producerChunks sampleTrace) 1),
        c.chunk_index ∈
          (liveDelivered (pushedBefore (producerChunks sampleTrace) 1)
              (raceSchedule (producerChunks sampleTrace) 1)).map Chunk.chunk_index := by
  refine ⟨le_refl 1, by decide, ?_⟩
  decide

/-- Claim C5 (amended): duplication is confined to the race the code does not
deduplicate. In every interleaving in which each chunk captured by the LRANGE snapshot
had already been published before the subscription began — (i+1)/2 ≤ j/2 — no chunk
is delivered both by the catch-up replay and by the live phase; the remaining
interleavings (read and subscribe both falling between a chunk's rpush and its
publish) deliver that chunk twice, as the counterexample shows. -/
theorem c5_amended_no_duplication_without_race (t : EngineTrace) (i j : Nat)
    (h : (i + 1) / 2 ≤ j / 2) :
    ∀ c ∈ replayDelivered (pushedBefore (producerChunks t) i),
      c.chunk_index ∉
        (liveDelivered (pushedBefore (producerChunks t) i)
            (raceSchedule (producerChunks t) j)).map Chunk.chunk_index := by
  intro c hc hmem
  have hidx := producerChunks_map_index t
  have hc' : c ∈ pushedBefore (producerChunks t) i :=
    (replayDelivered_sublist _).subset hc
  have hlt : c.chunk_index < (i + 1) / 2 := mem_take_index hidx hc'
  obtain ⟨x, hx, hxidx⟩ := List.mem_map.mp hmem
  cases hflag : (replayPhase (pushedBefore (producerChunks t) i)).2 with
  | true => simp [liveDelivered, hflag] at hx
  | false =>
      rw [liveDelivered, hflag] at hx
      simp only [Bool.false_eq_true, if_false, if_neg, not_false_iff] at hx
      obtain ⟨p, hp, hpc⟩ := livePhase_fst_mem hx
      obtain ⟨c'', hc''mem, hc''eq⟩ := List.mem_map.mp hp
      have hxc : c'' = x := by
        rw [← hc''eq] at hpc
        simpa using hpc
      subst hxc
      have hge : j / 2 ≤ c''.chunk_index := mem_drop_index hidx hc''mem
      omega

/-- Witness for C5 (amended) at the race-free interleaving i = j = 2 of the
sampleTrace producer: chunk 0 is captured by the replay and not re-delivered live. -/
theorem c5_amended_witness :
    (2 + 1) / 2 ≤ 2 / 2 ∧
      Chunk.mk 0 "content" "x" ∈ replayDelivered (pushedBefore (producerChunks sampleTrace) 2) ∧
      (Chunk.mk 0 "content" "x").chunk_index ∉
        (liveDelivered (pushedBefore (producerChunks sampleTrace) 2)
            (raceSchedule (producerChunks sampleTrace) 2)).map Chunk.chunk_index :=
  ⟨by decide, by decide,
    c5_amended_no_duplication_without_race sampleTrace 2 2 (by decide) _ (by decide)⟩

/-- Claim C6: the frame shape emitted for a stored chunk is determined by its
chunk_type, identically in the replay and in the live phase: content chunks give a
content frame, reasoning chunks a reasoning frame, done gives the done frame and ends
the session, error gives an error frame carrying the message and ends the session. -/
theorem c6_frame_shape_by_kind (c : Chunk) (rest : List Chunk) (e : ℚ)
    (sched : List (ℚ × Option Chunk)) (he : e ≤ max_wait_time) :
    (c.chunk_type = "content" →
        (replayPhase (c :: rest)).1.head? = some (c, Frame.content c.content) ∧
          (livePhase ((e, some c) :: sched)).1.head? = some (c, Frame.content c.content)) ∧
      (c.chunk_type = "reasoning" →
        (replayPhase (c :: rest)).1.head? = some (c, Frame.reasoning c.content) ∧
          (livePhase ((e, some c) :: sched)).1.head? = some (c, Frame.reasoning c.content)) ∧
      (c.chunk_type = "done" →
        replayPhase (c :: rest) = ([(c, Frame.done)], true) ∧
          livePhase ((e, some c) :: sched) = ([(c, Frame.done)], LiveExit.closed)) ∧
      (c.chunk_type = "error" →
        replayPhase (c :: rest) = ([(c, Frame.error c.content)], true) ∧
          livePhase ((e, some c) :: sched) = ([(c, Frame.error c.content)], LiveExit.closed)) := by
  have hne : ¬ max_wait_time < e := not_lt.mpr he
  refine ⟨?_, ?_, ?_, ?_⟩ <;> intro hk <;>
    exact ⟨by simp [replayPhase, hk], by simp [livePhase, hk, hne]⟩

/-- Witness for C6 at a concrete content chunk and an in-deadline live iteration. -/
theorem c6_witness :
    (replayPhase [Chunk.mk 0 "content" "x"]).1.head? =
        some (Chunk.mk 0 "content" "x", Frame.content "x") ∧
      (livePhase [((0 : ℚ), some (Chunk.mk 0 "content" "x"))]).1.head? =
        some (Chunk.mk 0 "content" "x", Frame.content "x") :=
  (c6_frame_shape_by_kind (Chunk.mk 0 "content" "x") [] 0 [] (by decide)).1 rfl

/-- Claim C7: in the live phase, an iteration whose get_message timed out (no message)
while the elapsed time is within max_wait_time = 300 seconds emits nothing and loops
again; once elapsed exceeds 300 seconds the loop stops at once and the session appends
the synthetic Stream-timeout error frame as its last output and closes. -/
theorem c7_timeout_behaviour (e : ℚ) (m : Option Chunk) (rest : List (ℚ × Option Chunk))
    (stored : List Chunk) (sched : List (ℚ × Option Chunk)) :
    max_wait_time = 300 ∧
      (e ≤ max_wait_time → livePhase ((e, none) :: rest) = livePhase rest) ∧
      (max_wait_time < e → livePhase ((e, m) :: rest) = ([], LiveExit.timed_out)) ∧
      ((replayPhase stored).2 = false → (livePhase sched).2 = LiveExit.timed_out →
        sessionFrames stored sched =
          ((replayPhase stored).1.map Prod.snd ++ (livePhase sched).1.map Prod.snd) ++
            [Frame.error "Stream timeout"]) := by
  refine ⟨rfl, ?_, ?_, ?_⟩
  · intro he
    simp [livePhase, not_lt.mpr he]
  · intro he
    simp [livePhase, he]
  · intro h1 h2
    simp [sessionFrames, generate_stream, h1, h2]

/-- Witness for C7: a quiet in-deadline iteration emits nothing, and a session whose
live loop hits the deadline ends in exactly the Stream-timeout error frame. -/
theorem c7_witness :
    livePhase [((1 : ℚ), none)] = livePhase [] ∧
      livePhase [((301 : ℚ), (none : Option Chunk))] = ([], LiveExit.timed_out) ∧
      sessionFrames [] [((301 : ℚ), none)] =
        ((replayPhase ([] : List Chunk)).1.map Prod.snd ++
            (livePhase [((301 : ℚ), (none : Option Chunk))]).1.map Prod.snd) ++
          [Frame.error "Stream timeout"] :=
  ⟨(c7_timeout_behaviour 1 none [] [] []).2.1 (by decide),
    (c7_timeout_behaviour 301 none [] [] []).2.2.1 (by decide),
    (c7_timeout_behaviour 301 none [] [] [((301 : ℚ), none)]).2.2.2 rfl (by decide)⟩

end PocAsyncCelery
